import Mathlib

/-!
Verification of the crabctl session-monitoring core.

This file gives a shallow embedding, in Lean, of the pure core of the Go
sources of crabctl: the terminal-output status classifier
(internal/session, function detectStatus and its helpers), session
ordering (SortSessions), the per-host registry merge performed by the TUI
event loop (internal/tui/model.go), the auto-forward watchdog
(checkAutoForward), the project-directory encoding (encodeProjectDir),
the tmux session-listing error handling (listSessionsWithPrefix), and the
transcript correlator selection pipeline (FindSessionUUID).

Go strings are modelled as lists of Unicode characters (GoStr below).
All string primitives used by the embedded code (TrimSpace, Contains,
HasPrefix, ToLower, ContainsAny, Split, SplitN) are defined here with the
semantics of the Go standard library on valid UTF-8 input; byte-level and
character-level substring or prefix matching agree on valid UTF-8 because
UTF-8 is self-synchronising, so the character-level model is faithful.
-/

namespace Crabctl

/-- Go strings, modelled as lists of Unicode scalar values. -/
abbrev GoStr := List Char

/-- White-space test used by strings.TrimSpace (the Unicode White_Space
property, as implemented by unicode.IsSpace in Go). -/
def goIsSpace (c : Char) : Bool :=
  decide (c.toNat = 0x09 ∨ c.toNat = 0x0A ∨ c.toNat = 0x0B ∨ c.toNat = 0x0C ∨
    c.toNat = 0x0D ∨ c.toNat = 0x20 ∨ c.toNat = 0x85 ∨ c.toNat = 0xA0 ∨
    c.toNat = 0x1680 ∨ (0x2000 ≤ c.toNat ∧ c.toNat ≤ 0x200A) ∨
    c.toNat = 0x2028 ∨ c.toNat = 0x2029 ∨ c.toNat = 0x202F ∨
    c.toNat = 0x205F ∨ c.toNat = 0x3000)

/-- Embedding of strings.TrimSpace. -/
def goTrimSpace (s : GoStr) : GoStr :=
  ((s.dropWhile goIsSpace).reverse.dropWhile goIsSpace).reverse

/-- Embedding of strings.HasPrefix: goHasPrefix p s is HasPrefix(s, p). -/
def goHasPrefix (p s : GoStr) : Bool :=
  p.isPrefixOf s

/-- Embedding of strings.TrimPrefix. -/
def goTrimPrefix (p s : GoStr) : GoStr :=
  if p.isPrefixOf s then s.drop p.length else s

/-- Embedding of strings.Contains: goContains s p is Contains(s, p). -/
def goContains (s p : GoStr) : Bool :=
  match s with
  | [] => p.isEmpty
  | c :: t => if p.isPrefixOf (c :: t) then true else goContains t p

/-- Embedding of strings.ContainsAny: some character of chars occurs in s. -/
def goContainsAny (s chars : GoStr) : Bool :=
  s.any (fun c => chars.contains c)

/-- Character lowering as used by strings.ToLower. ASCII letters are
mapped to lower case; the two non-ASCII characters whose Go lower case is
an ASCII letter (Kelvin sign and dotted capital I) are mapped explicitly.
Other characters are kept: the Go function maps the remaining upper-case
letters to non-ASCII lower-case letters, and every pattern the embedded
code compares a lowered string against is pure ASCII, so those mappings
cannot affect any comparison made here. -/
def goToLowerChar (c : Char) : Char :=
  if 'A' ≤ c ∧ c ≤ 'Z' then Char.ofNat (c.toNat + 32)
  else if c.toNat = 0x212A then 'k'
  else if c.toNat = 0x130 then 'i'
  else c

/-- Embedding of strings.ToLower. -/
def goToLower (s : GoStr) : GoStr :=
  s.map goToLowerChar

/-- Embedding of strings.Split(s, sep) for a one-character separator. -/
def splitOnChar (sep : Char) : GoStr → List GoStr
  | [] => [[]]
  | c :: t =>
    if c = sep then [] :: splitOnChar sep t
    else
      match splitOnChar sep t with
      | [] => [[c]]
      | h :: r => (c :: h) :: r

/-! ## Status and the classifier (internal/session, part of package session) -/

/-- Closed status enumeration of a monitored session. -/
inductive Status where
  | Unknown
  | Running
  | Waiting
  | Permission
  | Confirm
  | TaskDone
deriving DecidableEq, Repr

/-- Embedding of isDecorationLine: UI chrome recognition on a trimmed line. -/
def isDecorationLine (trimmed : GoStr) : Bool :=
  let lower := goToLower trimmed
  goContains lower ("bypass permissions on".toList) ||
  goContains lower ("shift+tab".toList) ||
  goContains lower ("auto-accept".toList) ||
  goContains lower ("accept edits on".toList) ||
  goContains lower ("plan mode on".toList) ||
  goContains lower ("for shortcuts".toList) ||
  goContains lower ("esc to interrupt".toList) ||
  goHasPrefix ("───".toList) trimmed ||
  goHasPrefix ['╌'] trimmed ||
  goHasPrefix ['╭'] trimmed ||
  goHasPrefix ['╰'] trimmed ||
  goHasPrefix ['│'] trimmed

/-- Embedding of isPermissionLine: permission-prompt wording on one line. -/
def isPermissionLine (line : GoStr) : Bool :=
  let lower := goToLower line
  (goContains lower ("allow".toList) && goContains lower ("deny".toList)) ||
  goContains lower ("yes / no".toList) || goContains lower ("yes/no".toList) ||
  goContains lower ("allow once".toList) || goContains lower ("allow always".toList)

/-- Embedding of isNumberedMenuItem: plan-approval menu items such as
a digit, a dot and a space, optionally preceded by a selector glyph. -/
def isNumberedMenuItem (trimmed : GoStr) : Bool :=
  let s := goTrimSpace (goTrimPrefix ['❯'] trimmed)
  match s with
  | c0 :: c1 :: c2 :: _ => decide ('1' ≤ c0 ∧ c0 ≤ '9' ∧ c1 = '.' ∧ c2 = ' ')
  | _ => false

/-- Braille spinner characters recognised by isRunningIndicator. -/
def brailleSpinners : GoStr := ['⠋', '⠙', '⠹', '⠸', '⠼', '⠴', '⠦', '⠧', '⠇', '⠏']

/-- Embedding of isRunningIndicator: structural detection of an active
progress line (spinner characters, or an ellipsis that is not a
truncation marker, action marker, prompt or idle placeholder). -/
def isRunningIndicator (trimmed : GoStr) : Bool :=
  if goContainsAny trimmed brailleSpinners then true
  else if !goContains trimmed ['…'] then false
  else if goHasPrefix ['…'] trimmed then false
  else if goHasPrefix ['⏺'] trimmed then false
  else if goHasPrefix ['❯'] trimmed || trimmed = ['>'] then false
  else if goContains trimmed ("… +".toList) && goContains trimmed ("lines".toList) then false
  else if trimmed = "Waiting…".toList then false
  else true

/-- Literal busy hint scanned for on decoration lines. -/
def escHint : GoStr := "esc to interrupt".toList

/-- Literal completion marker scanned for above a prompt. -/
def taskDoneMark : GoStr := "TASK DONE!".toList

/-- Loop body of detectStatus. The list argument holds the lines in
bottom-up order (the Go loop walks indices from the end); cl is the count
of non-decoration content lines seen so far, and the two flags record a
numbered menu item and a prompt line seen lower on screen. -/
def scanStatus : List GoStr → Nat → Bool → Bool → Status
  | [], _, _, sawPrompt => if sawPrompt then .Waiting else .Unknown
  | line :: rest, cl, sawMenu, sawPrompt =>
    if 10 ≤ cl then (if sawPrompt then .Waiting else .Unknown)
    else
      let t := goTrimSpace line
      if t = [] then scanStatus rest cl sawMenu sawPrompt
      else if isDecorationLine t then
        if goContains t escHint then .Running
        else if sawMenu && goHasPrefix ['╌'] t then .Confirm
        else scanStatus rest cl sawMenu sawPrompt
      else
        if sawPrompt then
          if goContains t taskDoneMark then .TaskDone else .Waiting
        else if isPermissionLine t then .Permission
        else if isNumberedMenuItem t then scanStatus rest (cl + 1) true sawPrompt
        else if t = ['❯'] || t = ['>'] || goHasPrefix ['❯'] t then
          scanStatus rest (cl + 1) sawMenu true
        else if isRunningIndicator t then .Running
        else scanStatus rest (cl + 1) sawMenu sawPrompt

/-- Embedding of detectStatus: bottom-up scan over the captured lines. -/
def detectStatus (lines : List GoStr) : Status :=
  scanStatus lines.reverse 0 false false

/-- Embedding of DetectStatus: status from raw pane output. -/
def DetectStatus (output : GoStr) : Status :=
  if output = [] then .Unknown else detectStatus (splitOnChar '\n' output)

/-! ## Sessions and their display order -/

/-- Embedding of the Session record. -/
structure Session where
  Name : GoStr
  FullName : GoStr
  Host : GoStr
  status : Status
  Mode : GoStr
  LastAction : GoStr
  GitChanges : GoStr
  PR : GoStr
  Context : GoStr
  Duration : Nat
  LastActive : Nat
  AttachedCount : Nat
  WorkDir : GoStr
deriving DecidableEq, Repr

/-- Embedding of statusPriority: lower is shown first. -/
def statusPriority : Status → Nat
  | .Permission | .Confirm | .TaskDone => 0
  | .Running => 1
  | .Waiting => 2
  | _ => 3

/-- Comparison closure passed to sort.SliceStable by SortSessions:
local before remote, then status priority, then ascending duration. -/
def sessLess (a b : Session) : Bool :=
  if a.Host.isEmpty ≠ b.Host.isEmpty then a.Host.isEmpty
  else if statusPriority a.status ≠ statusPriority b.status then
    decide (statusPriority a.status < statusPriority b.status)
  else decide (a.Duration < b.Duration)

/-- Total preorder induced by sessLess: a is allowed before b exactly
when the strict comparison does not demand b before a. -/
def SessLE (a b : Session) : Prop := (!sessLess b a) = true

instance : DecidableRel SessLE := fun a b => by unfold SessLE; infer_instance

/-- Embedding of SortSessions. Go uses sort.SliceStable with the strict
comparison sessLess; a stable sort by less is exactly a stable sort by
the total preorder SessLE, and stable sorts by a fixed total preorder
agree on all inputs, so the structurally recursive stable insertion sort
computes the same list as the Go call. -/
def SortSessions (l : List Session) : List Session :=
  l.insertionSort SessLE

/-! ## Registry merge in the TUI event loop (internal/tui/model.go) -/

/-- Embedding of filterByHost: keep remote entries (remoteOnly true) or
local entries (remoteOnly false). -/
def filterByHost (sessions : List Session) (remoteOnly : Bool) : List Session :=
  sessions.filter (fun s => (!s.Host.isEmpty) == remoteOnly)

/-- Embedding of the remoteSessionsMsg branch of Update: entries of the
message host are dropped, the message sessions are appended, and the
result is re-sorted. -/
def updateRemote (cur : List Session) (msgHost : GoStr) (msgSessions : List Session) :
    List Session :=
  SortSessions ((cur.filter (fun s => decide (s.Host ≠ msgHost))) ++ msgSessions)

/-- Embedding of the local session-list branch of Update: local entries
are replaced by the message, remote entries are kept, result re-sorted. -/
def updateLocal (cur msgSessions : List Session) : List Session :=
  SortSessions (msgSessions ++ filterByHost cur true)

/-- Embedding of the poll command built in refreshRemoteSessions: the
error of ListExecutor is discarded, so a failed listing yields a message
carrying the host and an empty session list. -/
def remotePollMsg (host : GoStr) (listResult : Except GoStr (List Session)) :
    GoStr × List Session :=
  match listResult with
  | .error _ => (host, [])
  | .ok sessions => (host, sessions)

/-! ## Auto-forward watchdog (checkAutoForward in internal/tui/model.go) -/

/-- Nudge delay in seconds (autoForwardDelay, 10 seconds in the source). -/
def autoForwardDelay : Nat := 10

/-- Cap on consecutive nudges (maxAutoForwards). -/
def maxAutoForwards : Nat := 5

/-- Per-session watchdog state: the waitingSince entry and the
autoForwardCount entry of checkAutoForward, keyed by the session
full name in the source. -/
structure AFState where
  waitingSince : Option Nat
  count : Nat
deriving DecidableEq, Repr

/-- One tick of checkAutoForward for a single session: the loop body of
the Go function for one entry of m.sessions, with the given enabled
flag (m.autoForward), current time and detected status. Returns the new
state and whether a nudge command was issued. The autoForwardSentMsg
acknowledgment that increments the counter is folded into the issuing
tick: the issued command re-captures the pane and sends only while the
session is still Waiting, which holds throughout the runs quantified
over below. -/
def checkAutoForwardStep (st : AFState) (enabled : Bool) (now : Nat) (status : Status) :
    AFState × Bool :=
  if !enabled then (st, false)
  else
    let st1 : AFState :=
      if status = .Waiting then
        match st.waitingSince with
        | none => { st with waitingSince := some now }
        | some _ => st
      else
        { waitingSince := none, count := if status = .Running then 0 else st.count }
    if status = .TaskDone then (st1, false)
    else
      match st1.waitingSince with
      | none => (st1, false)
      | some since =>
        if now - since < autoForwardDelay then (st1, false)
        else if maxAutoForwards ≤ st1.count then (st1, false)
        else ({ waitingSince := some now, count := st1.count + 1 }, true)

/-- Run of the watchdog over a trace of poll ticks for one opted-in
session; each tick carries its time and the detected status. Returns the
final state and the times at which nudges were issued. -/
def afRun (st : AFState) : List (Nat × Status) → AFState × List Nat
  | [] => (st, [])
  | (t, s) :: rest =>
    let step := checkAutoForwardStep st true t s
    let tail := afRun step.1 rest
    (tail.1, if step.2 then t :: tail.2 else tail.2)

/-! ## Project directory encoding (encodeProjectDir) -/

/-- Embedding of encodeProjectDir: strings.ReplaceAll(dir, single slash,
single hyphen), which on one-character patterns is a character map. -/
def encodeProjectDir (dir : GoStr) : GoStr :=
  dir.map (fun c => if c = '/' then '-' else c)

/-! ## tmux session listing (internal/tmux/local.go) -/

/-- Embedding of the tmux SessionInfo record. -/
structure SessionInfo where
  Name : GoStr
  FullName : GoStr
  AttachedCount : Int
  Created : Int
deriving DecidableEq, Repr

/-- Embedding of strings.SplitN(s, sep, 3) for a one-character separator. -/
def splitN3 (sep : Char) (s : GoStr) : List GoStr :=
  match splitOnChar sep s with
  | a :: b :: c :: rest => [a, b, List.intercalate [sep] (c :: rest)]
  | other => other

/-- Signed decimal reading shared by strconv.Atoi and strconv.ParseInt
with the 64-bit size: syntax errors yield 0, and out-of-range values are
clamped to the int64 bounds (the Go functions return the clamped value
together with a range error, and the callers discard the error). -/
def goParseInt64 (s : GoStr) : Int :=
  let core : GoStr → Option Int := fun ds =>
    if ds = [] ∨ ¬ ds.all (fun c => '0' ≤ c ∧ c ≤ '9') then none
    else some (Int.ofNat (ds.foldl (fun acc c => acc * 10 + (c.toNat - '0'.toNat)) 0))
  let signed : Option Int :=
    match s with
    | '+' :: rest => core rest
    | '-' :: rest => (core rest).map Int.neg
    | _ => core s
  match signed with
  | none => 0
  | some v =>
    if v > (2 ^ 63 - 1 : Int) then 2 ^ 63 - 1
    else if v < (-(2 ^ 63) : Int) then -(2 ^ 63)
    else v

/-- Embedding of parseSessionList: split the trimmed output into lines,
split each line into three fields, keep lines whose first field carries
the session-name marker pfx, and build SessionInfo records. -/
def parseSessionList (output : GoStr) (pfx : GoStr) : List SessionInfo :=
  (splitOnChar '\n' (goTrimSpace output)).foldr
    (fun line acc =>
      if line = [] then acc
      else
        match splitN3 '|' line with
        | [p0, p1, p2] =>
          if goHasPrefix pfx p0 then
            { Name := goTrimPrefix pfx p0, FullName := p0,
              AttachedCount := goParseInt64 p1, Created := goParseInt64 p2 } :: acc
          else acc
        | _ => acc)
    []

/-- Environment seen by listSessionsWithPrefix: the result of looking up
the tmux binary on PATH, and the outcome of running the list-sessions
command (none models a failing command, as with no server running). -/
structure TmuxEnv where
  tmuxPath : Option GoStr
  listOutput : Option GoStr
deriving DecidableEq, Repr

/-- Embedding of listSessionsWithPrefix: a missing binary is an error; a
failing list command is coerced to an empty listing with no error;
otherwise the output is run through parseSessionList. -/
def listSessionsWithPrefix (env : TmuxEnv) (pfx : GoStr) :
    Except GoStr (List SessionInfo) :=
  match env.tmuxPath with
  | none => .error ("tmux not found".toList)
  | some _ =>
    match env.listOutput with
    | none => .ok []
    | some out => .ok (parseSessionList out pfx)

/-! ## Transcript correlator (FindSessionUUID in package session)

The selection pipeline of FindSessionUUID is embedded over a directory
listing given as a list of file records. Each record carries the fields
the Go code derives from the file on disk: the identifier (file name
without the .jsonl suffix), the modification time, and the metadata
readSessionMeta and readLastUserMessages extract from the fixed file
contents (start time, first message, last user-message snippets); those
two readers are deterministic functions of the file bytes, so fixing the
extracted fields is the same as fixing the file contents. -/

/-- One candidate transcript file with its extracted metadata. -/
structure FileEntry where
  uuid : String
  modTime : Nat
  started : Option Nat
  firstMsg : GoStr
  snippets : List GoStr
deriving DecidableEq, Repr

/-- File-name order on directory entries. -/
def UuidLE (a b : FileEntry) : Prop := a.uuid ≤ b.uuid

instance : DecidableRel UuidLE := fun a b => by unfold UuidLE; infer_instance

instance : IsTotal FileEntry UuidLE := ⟨fun a b => le_total a.uuid b.uuid⟩

instance : IsTrans FileEntry UuidLE := ⟨fun _ _ _ h1 h2 => le_trans h1 h2⟩

/-- Newest-first order on modification times, as a total preorder. -/
def ModTimeDesc (a b : FileEntry) : Prop := b.modTime ≤ a.modTime

instance : DecidableRel ModTimeDesc := fun a b => by unfold ModTimeDesc; infer_instance

instance : IsTotal FileEntry ModTimeDesc := ⟨fun a b => le_total b.modTime a.modTime⟩

instance : IsTrans FileEntry ModTimeDesc := ⟨fun _ _ _ h1 h2 => le_trans h2 h1⟩

/-- Directory listing as returned by os.ReadDir: entries sorted by file
name. The input list may be in any order; this canonicalisation models
the sorted order the Go code always receives. -/
def readDirSorted (entries : List FileEntry) : List FileEntry :=
  entries.insertionSort UuidLE

/-- Candidate list of FindSessionUUID: exclusion filtering, the
newest-first sort on modification time, and the cap of 10 candidates.
Go sorts with sort.Slice, which is deterministic for a fixed input
order; the deterministic insertion sort used here models it. -/
def candidatesOf (excludeUUIDs : List String) (entries : List FileEntry) :
    List FileEntry :=
  ((((readDirSorted entries).filter
      (fun e => decide (e.uuid ∉ excludeUUIDs))).insertionSort ModTimeDesc).take 10)

/-- Content-match score of strategy 1: how many of the last user-message
snippets of the candidate occur in the captured pane content. -/
def contentScore (paneContent : GoStr) (c : FileEntry) : Nat :=
  (c.snippets.filter (fun s => goContains paneContent s)).length

/-- Strategy 1 of FindSessionUUID: best strictly-positive content score,
first maximum wins. -/
def strat1 (paneContent : GoStr) (cands : List FileEntry) : Option FileEntry :=
  (cands.foldl
    (fun (acc : Option FileEntry × Nat) c =>
      if acc.2 < contentScore paneContent c then (some c, contentScore paneContent c)
      else acc)
    (none, 0)).1

/-- Strategy 2 of FindSessionUUID: smallest non-negative gap between the
candidate start time and the session start time, first minimum wins. -/
def strat2 (sessionStart : Nat) (cands : List FileEntry) : Option FileEntry :=
  (cands.foldl
    (fun (acc : Option (FileEntry × Nat)) c =>
      match c.started with
      | none => acc
      | some st =>
        if st < sessionStart then acc
        else
          match acc with
          | none => some (c, st - sessionStart)
          | some b => if st - sessionStart < b.2 then some (c, st - sessionStart) else acc)
    none).map Prod.fst

/-- Strategy 3 of FindSessionUUID: most recently modified candidate among
those modified at or after the session start, first maximum wins. -/
def strat3 (sessionStart : Nat) (cands : List FileEntry) : Option FileEntry :=
  cands.foldl
    (fun acc c =>
      if c.modTime < sessionStart then acc
      else
        match acc with
        | none => some c
        | some b => if b.modTime < c.modTime then some c else acc)
    none

/-- Strategy 4 of FindSessionUUID: most recently modified candidate
overall, first maximum wins. -/
def strat4 (cands : List FileEntry) : Option FileEntry :=
  cands.foldl
    (fun acc c =>
      match acc with
      | none => some c
      | some b => if b.modTime < c.modTime then some c else acc)
    none

/-- Strategy cascade of FindSessionUUID over the capped candidate list:
first successful strategy wins; sessionStart none models the zero time. -/
def findFromCandidates (sessionStart : Option Nat) (paneContent : GoStr)
    (cands : List FileEntry) : String × GoStr :=
  if cands = [] then ("", [])
  else
    let r1 := if paneContent ≠ [] ∧ 1 < cands.length then strat1 paneContent cands else none
    let r2 := match sessionStart with | some st => strat2 st cands | none => none
    let r3 := match sessionStart with | some st => strat3 st cands | none => none
    match r1 <|> r2 <|> r3 <|> strat4 cands with
    | some c => (c.uuid, c.firstMsg)
    | none => ("", [])

/-- Embedding of FindSessionUUID: the returned pair is the transcript
identifier and its first message, or a pair of empty strings. -/
def FindSessionUUID (workDir : GoStr) (sessionStart : Option Nat) (paneContent : GoStr)
    (excludeUUIDs : List String) (entries : List FileEntry) : String × GoStr :=
  if workDir = [] then ("", [])
  else findFromCandidates sessionStart paneContent (candidatesOf excludeUUIDs entries)

/-! ## C6: determinism of the transcript correlator -/

/-- Strict file-name order, weakened by equality, used to show that a
name-sorted listing of distinctly named files is unique. -/
def UuidStrictEq (a b : FileEntry) : Prop := a.uuid < b.uuid ∨ a = b

instance : IsAntisymm FileEntry UuidStrictEq where
  antisymm a b h1 h2 := by
    rcases h1 with h1 | h1
    · rcases h2 with h2 | h2
      · exact absurd h1 (not_lt.mpr (le_of_lt h2))
      · exact h2.symm
    · exact h1

/-- Listings of the same files with pairwise distinct names sort to the
same list, whatever order the files were presented in. -/
theorem readDirSorted_eq_of_perm (e₁ e₂ : List FileEntry)
    (hp : e₁.Perm e₂) (hnd : e₁.Pairwise (fun a b => a.uuid ≠ b.uuid)) :
    readDirSorted e₁ = readDirSorted e₂ := by
  have hs1 : List.Sorted UuidLE (readDirSorted e₁) := List.sorted_insertionSort UuidLE e₁
  have hs2 : List.Sorted UuidLE (readDirSorted e₂) := List.sorted_insertionSort UuidLE e₂
  have hperm : (readDirSorted e₁).Perm (readDirSorted e₂) :=
    (List.perm_insertionSort UuidLE e₁).trans
      (hp.trans (List.perm_insertionSort UuidLE e₂).symm)
  have hsymm : ∀ {x y : FileEntry}, x.uuid ≠ y.uuid → y.uuid ≠ x.uuid :=
    fun h => h.symm
  have hnd1 : (readDirSorted e₁).Pairwise (fun a b => a.uuid ≠ b.uuid) :=
    ((List.perm_insertionSort UuidLE e₁).pairwise_iff hsymm).mpr hnd
  have hnd2 : (readDirSorted e₂).Pairwise (fun a b => a.uuid ≠ b.uuid) :=
    ((List.perm_insertionSort UuidLE e₂).pairwise_iff hsymm).mpr
      ((hp.pairwise_iff hsymm).mp hnd)
  have hst1 : List.Sorted UuidStrictEq (readDirSorted e₁) :=
    (hnd1.and hs1).imp (fun h => Or.inl (lt_of_le_of_ne h.2 h.1))
  have hst2 : List.Sorted UuidStrictEq (readDirSorted e₂) :=
    (hnd2.and hs2).imp (fun h => Or.inl (lt_of_le_of_ne h.2 h.1))
  exact List.eq_of_perm_of_sorted hperm hst1 hst2

/-- C6. The correlator is deterministic: for a fixed working directory,
session start, pane content and exclusion set, any two presentations of
the same set of candidate files (same names, modification times and
extracted contents, distinct names as in one directory) yield the same
transcript identifier and first message: there is no randomized
tie-break anywhere in the strategy cascade. -/
theorem FindSessionUUID_deterministic
    (workDir : GoStr) (sessionStart : Option Nat) (paneContent : GoStr)
    (excludeUUIDs : List String) (e₁ e₂ : List FileEntry)
    (hp : e₁.Perm e₂) (hnd : e₁.Pairwise (fun a b => a.uuid ≠ b.uuid)) :
    FindSessionUUID workDir sessionStart paneContent excludeUUIDs e₁ =
      FindSessionUUID workDir sessionStart paneContent excludeUUIDs e₂ := by
  unfold FindSessionUUID candidatesOf
  rw [readDirSorted_eq_of_perm e₁ e₂ hp hnd]

/-- Transcript fixture with a content-matching snippet. -/
def c6a : FileEntry :=
  { uuid := "a1", modTime := 5, started := some 3,
    firstMsg := "hello".toList, snippets := ["fix the bug".toList] }

/-- Transcript fixture that is newer but matches no content. -/
def c6b : FileEntry :=
  { uuid := "b2", modTime := 7, started := some 9,
    firstMsg := "there".toList, snippets := [] }

/-- C6 witness: the determinism theorem applied to the two presentations
of a concrete two-file candidate set. -/
theorem FindSessionUUID_deterministic_witness :
    FindSessionUUID "/w".toList (some 2) "pane fix the bug pane".toList [] [c6a, c6b] =
      FindSessionUUID "/w".toList (some 2) "pane fix the bug pane".toList [] [c6b, c6a] :=
  FindSessionUUID_deterministic "/w".toList (some 2) "pane fix the bug pane".toList []
    [c6a, c6b] [c6b, c6a] (by decide) (by decide)

/-! ## Helper lemmas on the session order -/

/-- Session constructor for concrete instances: only the fields the
embedded operations inspect are varied, all others are empty. -/
def mkSession (name host : GoStr) (st : Status) (dur : Nat) : Session :=
  { Name := name, FullName := name, Host := host, status := st, Mode := [],
    LastAction := [], GitChanges := [], PR := [], Context := [], Duration := dur,
    LastActive := 0, AttachedCount := 0, WorkDir := [] }

/-- Locality rank used by the first comparison of sessLess. -/
def sessRank (a : Session) : Nat := if a.Host.isEmpty then 0 else 1

/-- Characterisation of sessLess as a lexicographic comparison on the
triple of locality rank, status priority and duration. -/
theorem sessLess_iff (a b : Session) : sessLess a b = true ↔
    (sessRank a < sessRank b ∨ (sessRank a = sessRank b ∧
      (statusPriority a.status < statusPriority b.status ∨
        (statusPriority a.status = statusPriority b.status ∧ a.Duration < b.Duration)))) := by
  cases ha : a.Host.isEmpty <;> cases hb : b.Host.isEmpty <;>
    by_cases h2 : statusPriority a.status = statusPriority b.status <;>
      simp [sessLess, sessRank, ha, hb, h2] <;> omega

/-- The sort comparison used by SortSessions is transitive. -/
theorem sessLE_trans (a b c : Session) :
    SessLE a b → SessLE b c → SessLE a c := by
  unfold SessLE
  simp only [Bool.not_eq_true']
  intro hba hcb
  by_contra hca
  rw [Bool.not_eq_false, sessLess_iff] at hca
  have hba2 : ¬ sessLess b a = true := by simp [hba]
  have hcb2 : ¬ sessLess c b = true := by simp [hcb]
  rw [sessLess_iff] at hba2 hcb2
  omega

/-- The sort comparison used by SortSessions is total. -/
theorem sessLE_total (a b : Session) : SessLE a b ∨ SessLE b a := by
  unfold SessLE
  simp only [Bool.not_eq_true']
  by_contra h
  push_neg at h
  obtain ⟨h1, h2⟩ := h
  simp only [ne_eq, Bool.not_eq_false] at h1 h2
  rw [sessLess_iff] at h1 h2
  omega

instance : IsTotal Session SessLE := ⟨sessLE_total⟩

instance : IsTrans Session SessLE := ⟨sessLE_trans⟩

/-! ## C9: encodeProjectDir is pure, total and idempotent -/

/-- C9. The function encodeProjectDir is a total function on paths,
applying it twice gives the same result as applying it once, and it
satisfies the fixed table of the specification. -/
theorem encodeProjectDir_idempotent_total :
    (∀ p : GoStr, encodeProjectDir (encodeProjectDir p) = encodeProjectDir p) ∧
    encodeProjectDir "/Users/a/b".toList = "-Users-a-b".toList ∧
    encodeProjectDir [] = [] := by
  refine ⟨fun p => ?_, by decide, rfl⟩
  unfold encodeProjectDir
  rw [List.map_map]
  apply List.map_congr_left
  intro c _
  by_cases h : c = '/' <;> simp [h]

/-! ## C8: session listing with the multiplexer absent or down -/

/-- C8 (amended). When the tmux binary is present but the list-sessions
command fails (no server running, no sessions), listSessionsWithPrefix
returns an empty session list and no error. -/
theorem listSessions_no_server_zero (bin pfx : GoStr) :
    listSessionsWithPrefix ⟨some bin, none⟩ pfx = .ok [] := rfl

/-- C8 counterexample to the claim as stated: with no tmux binary on
PATH the listing returns an error, not an empty success. -/
theorem listSessions_missing_binary_cex :
    listSessionsWithPrefix ⟨none, none⟩ ("crab-".toList) =
      .error ("tmux not found".toList) ∧
    listSessionsWithPrefix ⟨none, none⟩ ("crab-".toList) ≠ .ok [] := by
  refine ⟨rfl, fun h => ?_⟩
  simp only [listSessionsWithPrefix] at h
  exact Except.noConfusion h

/-! ## C3: a failed remote poll and the registry -/

/-- C3 (amended). A failed remote listing is coerced by the poll command
to an empty session list, so processing it leaves the registry holding
exactly the entries of the other hosts and of the local executor: the
failing host has its prior entries cleared, everything else is kept. -/
theorem remote_poll_failure_clears_host (cur : List Session) (host e : GoStr) :
    (updateRemote cur (remotePollMsg host (.error e)).1
        (remotePollMsg host (.error e)).2).Perm
      (cur.filter (fun s => decide (s.Host ≠ host))) := by
  simp only [remotePollMsg, updateRemote, List.append_nil]
  exact List.perm_insertionSort SessLE _

/-- C3 counterexample to the claim as stated: after a failed poll for
host h1, the prior h1 entry is not left in place, the registry drops it. -/
theorem remote_poll_failure_not_stale_cex :
    (remotePollMsg "h1".toList (.error "ssh: connect failed".toList)).2 = [] ∧
    (mkSession "crab-a".toList "h1".toList .Waiting 5).Host = "h1".toList ∧
    updateRemote [mkSession "crab-a".toList "h1".toList .Waiting 5] "h1".toList
      (remotePollMsg "h1".toList (.error "ssh: connect failed".toList)).2 = [] := by
  refine ⟨rfl, rfl, ?_⟩
  decide

/-! ## Helper lemmas on the string primitives and the classifier -/

/-- Substring containment is preserved by mapping a character function
over both the string and the pattern. -/
theorem goContains_map (f : Char → Char) (s p : GoStr) (h : goContains s p = true) :
    goContains (s.map f) (p.map f) = true := by
  induction s with
  | nil =>
    rw [goContains, List.isEmpty_iff] at h
    subst h
    rfl
  | cons c t ih =>
    rw [goContains] at h
    rw [List.map_cons, goContains]
    by_cases hq : (p.map f).isPrefixOf (f c :: t.map f) = true
    · rw [if_pos hq]
    · rw [if_neg hq]
      by_cases hp : p.isPrefixOf (c :: t) = true
      · exfalso
        apply hq
        rw [List.isPrefixOf_iff_prefix]
        have := (List.isPrefixOf_iff_prefix.mp hp).map f
        simpa using this
      · rw [if_neg hp] at h
        exact ih h

/-- The busy hint is all lower case, so lowering fixes it. -/
theorem goToLower_escHint_fixed : escHint.map goToLowerChar = escHint := by decide

/-- A trimmed line containing the busy hint is a decoration line. -/
theorem hint_line_decor (t : GoStr) (h : goContains t escHint = true) :
    isDecorationLine t = true := by
  have h2 := goContains_map goToLowerChar t escHint h
  rw [goToLower_escHint_fixed] at h2
  have h3 : goContains (goToLower t) ("esc to interrupt".toList) = true := h2
  simp only [isDecorationLine]
  rw [h3]
  simp

/-- A string containing a nonempty pattern is nonempty. -/
theorem goContains_nonempty (s p : GoStr) (h : goContains s p = true) (hp : p ≠ []) :
    s ≠ [] := by
  intro hs
  subst hs
  rw [goContains, List.isEmpty_iff] at h
  exact hp h

/-- Scanning a block whose bottom region is blank or decoration reaches
a line holding the busy hint and classifies Running. -/
theorem scan_hint_runs (ps : List GoStr) : ∀ (rest : List GoStr) (L : GoStr),
    goContains (goTrimSpace L) escHint = true →
    (∀ l ∈ ps, goTrimSpace l = [] ∨ isDecorationLine (goTrimSpace l) = true) →
    scanStatus (ps ++ L :: rest) 0 false false = .Running := by
  induction ps with
  | nil =>
    intro rest L hL _
    have ht : goTrimSpace L ≠ [] := goContains_nonempty _ _ hL (by decide)
    have hdec : isDecorationLine (goTrimSpace L) = true := hint_line_decor _ hL
    simp [scanStatus, ht, hdec, hL]
  | cons l ps ih =>
    intro rest L hL hskip
    have hrest : ∀ x ∈ ps, goTrimSpace x = [] ∨ isDecorationLine (goTrimSpace x) = true :=
      fun x hx => hskip x (List.mem_cons_of_mem _ hx)
    rcases hskip l (by simp) with hblank | hdec
    · rw [List.cons_append]
      simp [scanStatus, hblank]
      exact ih rest L hL hrest
    · have hne : goTrimSpace l ≠ [] := by
        intro he
        rw [he] at hdec
        exact absurd hdec (by decide)
      by_cases hHint : goContains (goTrimSpace l) escHint = true
      · rw [List.cons_append]
        simp [scanStatus, hne, hdec, hHint]
      · rw [List.cons_append]
        simp [scanStatus, hne, hdec, hHint]
        exact ih rest L hL hrest

/-! ## C1: the busy hint on a bottom decoration line -/

/-- C1 (amended). If a decoration line contains the busy hint and every
line below it is blank or decoration (as in the bottom status-bar area),
the classifier returns Running regardless of all content above the hint.
Content below the hint can pre-empt it, which is the subject of the
matching counterexample. -/
theorem detectStatus_escHint_bottom_running (pre post : List GoStr) (L : GoStr)
    (hL : goContains (goTrimSpace L) escHint = true)
    (hpost : ∀ l ∈ post, goTrimSpace l = [] ∨ isDecorationLine (goTrimSpace l) = true) :
    detectStatus (pre ++ L :: post) = .Running := by
  unfold detectStatus
  have hrev : (pre ++ L :: post).reverse = post.reverse ++ L :: pre.reverse := by
    simp
  rw [hrev]
  exact scan_hint_runs post.reverse pre.reverse L hL
    (fun l hl => hpost l (List.mem_reverse.mp hl))

/-- C1 witness: a captured block whose bottom status bar carries the
busy hint classifies Running. -/
theorem detectStatus_escHint_bottom_running_witness :
    detectStatus ["⏺ Read(foo.go)".toList,
      "  ⏵⏵ bypass permissions on (shift+tab to cycle) · esc to interrupt".toList] =
      .Running :=
  detectStatus_escHint_bottom_running ["⏺ Read(foo.go)".toList] []
    "  ⏵⏵ bypass permissions on (shift+tab to cycle) · esc to interrupt".toList
    (by decide) (by decide)

/-- C1 counterexample to the claim as stated: an input that does contain
the busy hint on a decoration line is not classified Running when
permission wording sits below the hint, because the bottom-up scan
reaches the permission line first. -/
theorem detectStatus_escHint_not_global_cex :
    isDecorationLine (goTrimSpace "esc to interrupt".toList) = true ∧
    goContains (goTrimSpace "esc to interrupt".toList) escHint = true ∧
    detectStatus ["esc to interrupt".toList,
      "Do you want to Allow or Deny this?".toList] = .Permission ∧
    detectStatus ["esc to interrupt".toList,
      "Do you want to Allow or Deny this?".toList] ≠ .Running := by
  refine ⟨by decide, by decide, by decide, by decide⟩

/-! ## C5: permission wording and the bottom window -/

/-- Bottom window of the classifier: the trimmed non-blank
non-decoration lines, bottom-up, capped at the ten-content-line budget. -/
def contentWindow (lines : List GoStr) : List GoStr :=
  (((lines.reverse.map goTrimSpace).filter
      (fun t => decide (t ≠ []) && !isDecorationLine t)).take 10)

/-- Skipping over blank lines and decoration lines without the busy
hint leaves the scan state untouched. -/
theorem scan_skip_eq (ps : List GoStr) : ∀ (rest : List GoStr),
    (∀ l ∈ ps, goTrimSpace l = [] ∨
      (isDecorationLine (goTrimSpace l) = true ∧
        goContains (goTrimSpace l) escHint = false)) →
    scanStatus (ps ++ rest) 0 false false = scanStatus rest 0 false false := by
  induction ps with
  | nil =>
    intro rest _
    rw [List.nil_append]
  | cons l ps ih =>
    intro rest hskip
    have hrest : ∀ x ∈ ps, goTrimSpace x = [] ∨
        (isDecorationLine (goTrimSpace x) = true ∧
          goContains (goTrimSpace x) escHint = false) :=
      fun x hx => hskip x (List.mem_cons_of_mem _ hx)
    rcases hskip l (by simp) with hblank | ⟨hdec, hh⟩
    · rw [List.cons_append]
      simp [scanStatus, hblank]
      exact ih rest hrest
    · have hne : goTrimSpace l ≠ [] := by
        intro he
        rw [he] at hdec
        exact absurd hdec (by decide)
      rw [List.cons_append]
      simp [scanStatus, hne, hdec, hh]
      exact ih rest hrest

/-- If the scan returns Permission, a permission line sits among the
remaining budget of content lines. -/
theorem scan_permission_mem (ps : List GoStr) : ∀ (cl : Nat) (m p : Bool),
    scanStatus ps cl m p = .Permission →
    ∃ t ∈ ((ps.map goTrimSpace).filter
        (fun t => decide (t ≠ []) && !isDecorationLine t)).take (10 - cl),
      isPermissionLine t = true := by
  induction ps with
  | nil =>
    intro cl m p h
    cases p <;> simp [scanStatus] at h
  | cons line ps ih =>
    intro cl m p h
    simp only [scanStatus] at h
    by_cases hcl : 10 ≤ cl
    · rw [if_pos hcl] at h
      cases p <;> simp at h
    · rw [if_neg hcl] at h
      by_cases hb : goTrimSpace line = []
      · rw [if_pos hb] at h
        rw [List.map_cons, List.filter_cons, if_neg (by simp [hb])]
        exact ih cl m p h
      · rw [if_neg hb] at h
        by_cases hd : isDecorationLine (goTrimSpace line) = true
        · rw [if_pos hd] at h
          by_cases hh : goContains (goTrimSpace line) escHint = true
          · rw [if_pos hh] at h
            simp at h
          · rw [if_neg hh] at h
            by_cases hm : (m && goHasPrefix ['╌'] (goTrimSpace line)) = true
            · rw [if_pos hm] at h
              simp at h
            · rw [if_neg hm] at h
              rw [List.map_cons, List.filter_cons, if_neg (by simp [hd])]
              exact ih cl m p h
        · rw [if_neg hd] at h
          rw [List.map_cons, List.filter_cons, if_pos (by simp [hb, hd])]
          have hsplit : 10 - cl = (10 - (cl + 1)) + 1 := by omega
          rw [hsplit, List.take_succ_cons]
          cases p with
          | true =>
            rw [if_pos rfl] at h
            by_cases ht : goContains (goTrimSpace line) taskDoneMark = true
            · rw [if_pos ht] at h
              simp at h
            · rw [if_neg ht] at h
              simp at h
          | false =>
            rw [if_neg (by simp)] at h
            by_cases hperm : isPermissionLine (goTrimSpace line) = true
            · exact ⟨goTrimSpace line, List.mem_cons_self _ _, hperm⟩
            · rw [if_neg hperm] at h
              by_cases hnum : isNumberedMenuItem (goTrimSpace line) = true
              · rw [if_pos hnum] at h
                obtain ⟨u, hu, hup⟩ := ih (cl + 1) true false h
                exact ⟨u, List.mem_cons_of_mem _ hu, hup⟩
              · rw [if_neg hnum] at h
                by_cases hpr : (decide (goTrimSpace line = ['❯']) ||
                    decide (goTrimSpace line = ['>']) ||
                    goHasPrefix ['❯'] (goTrimSpace line)) = true
                · rw [if_pos hpr] at h
                  obtain ⟨u, hu, hup⟩ := ih (cl + 1) m true h
                  exact ⟨u, List.mem_cons_of_mem _ hu, hup⟩
                · rw [if_neg hpr] at h
                  by_cases hrun : isRunningIndicator (goTrimSpace line) = true
                  · rw [if_pos hrun] at h
                    simp at h
                  · rw [if_neg hrun] at h
                    obtain ⟨u, hu, hup⟩ := ih (cl + 1) m false h
                    exact ⟨u, List.mem_cons_of_mem _ hu, hup⟩

/-- C5 (amended). A permission line that is the bottommost content line
(only blanks and hint-free decoration below it) classifies Permission;
and conversely Permission is only ever returned when a permission line
lies within the bottom ten-content-line window. Permission wording in
the window does not force Permission when a lower line classifies
first, which is the subject of the matching counterexample. -/
theorem detectStatus_permission_window :
    (∀ (pre : List GoStr) (L : GoStr) (post : List GoStr),
      (∀ l ∈ post, goTrimSpace l = [] ∨
        (isDecorationLine (goTrimSpace l) = true ∧
          goContains (goTrimSpace l) escHint = false)) →
      isDecorationLine (goTrimSpace L) = false →
      isPermissionLine (goTrimSpace L) = true →
      detectStatus (pre ++ L :: post) = .Permission) ∧
    (∀ lines : List GoStr, detectStatus lines = .Permission →
      ∃ t ∈ contentWindow lines, isPermissionLine t = true) := by
  constructor
  · intro pre L post hpost hLd hLp
    unfold detectStatus
    have hrev : (pre ++ L :: post).reverse = post.reverse ++ L :: pre.reverse := by
      simp
    rw [hrev, scan_skip_eq post.reverse (L :: pre.reverse)
      (fun l hl => hpost l (List.mem_reverse.mp hl))]
    have hne : goTrimSpace L ≠ [] := by
      intro he
      rw [he] at hLp
      exact absurd hLp (by decide)
    simp [scanStatus, hne, hLd, hLp]
  · intro lines h
    unfold detectStatus at h
    simpa [contentWindow] using scan_permission_mem lines.reverse 0 false false h

/-- C5 witness: a permission prompt at the bottom of the captured block
classifies Permission. -/
theorem detectStatus_permission_window_witness :
    detectStatus ["⏺ Bash(rm -rf /tmp/test)".toList, "".toList,
      "  Allow   Deny".toList] = .Permission :=
  detectStatus_permission_window.1 ["⏺ Bash(rm -rf /tmp/test)".toList, "".toList]
    "  Allow   Deny".toList [] (by decide) (by decide) (by decide)

/-- C5 counterexample to the claim as stated: allow and deny wording
co-occurs on a content line inside the bottom window, yet the classifier
returns Waiting, because the prompt line below it resolves the scan. -/
theorem detectStatus_permission_above_prompt_cex :
    (∃ t ∈ contentWindow
        ["⏺ The firewall rules allow traffic and deny bad actors.".toList,
         "  You should allow ingress and deny egress for this policy.".toList,
         "".toList, "❯".toList, "───────────────────".toList,
         "  ? for shortcuts".toList],
      isPermissionLine t = true) ∧
    detectStatus
        ["⏺ The firewall rules allow traffic and deny bad actors.".toList,
         "  You should allow ingress and deny egress for this policy.".toList,
         "".toList, "❯".toList, "───────────────────".toList,
         "  ? for shortcuts".toList] = .Waiting ∧
    detectStatus
        ["⏺ The firewall rules allow traffic and deny bad actors.".toList,
         "  You should allow ingress and deny egress for this policy.".toList,
         "".toList, "❯".toList, "───────────────────".toList,
         "  ? for shortcuts".toList] ≠ .Permission ∧
    (∃ l ∈ ["Allow or Deny the request".toList, "a".toList, "b".toList, "c".toList,
        "d".toList, "e".toList, "f".toList, "g".toList, "h".toList, "i".toList,
        "j".toList, "✻ Pondering…".toList],
      isPermissionLine (goTrimSpace l) = true) ∧
    (∀ t ∈ contentWindow
        ["Allow or Deny the request".toList, "a".toList, "b".toList, "c".toList,
         "d".toList, "e".toList, "f".toList, "g".toList, "h".toList, "i".toList,
         "j".toList, "✻ Pondering…".toList],
      isPermissionLine t = false) ∧
    detectStatus
        ["Allow or Deny the request".toList, "a".toList, "b".toList, "c".toList,
         "d".toList, "e".toList, "f".toList, "g".toList, "h".toList, "i".toList,
         "j".toList, "✻ Pondering…".toList] = .Running := by
  refine ⟨by decide, by decide, by decide, by decide, by decide, by decide⟩

/-! ## Helper lemmas on the auto-forward watchdog -/

/-- Unfolding of one watchdog run step. -/
theorem afRun_cons (st : AFState) (t : Nat) (s : Status) (rest : List (Nat × Status)) :
    afRun st ((t, s) :: rest) =
      ((afRun (checkAutoForwardStep st true t s).1 rest).1,
        if (checkAutoForwardStep st true t s).2 then
          t :: (afRun (checkAutoForwardStep st true t s).1 rest).2
        else (afRun (checkAutoForwardStep st true t s).1 rest).2) := rfl

/-- A watchdog run splits over list concatenation. -/
theorem afRun_append (st : AFState) (l1 l2 : List (Nat × Status)) :
    afRun st (l1 ++ l2) =
      ((afRun (afRun st l1).1 l2).1, (afRun st l1).2 ++ (afRun (afRun st l1).1 l2).2) := by
  induction l1 generalizing st with
  | nil => simp [afRun]
  | cons x rest ih =>
    obtain ⟨t, s⟩ := x
    rw [List.cons_append, afRun_cons, afRun_cons, ih]
    by_cases hn : (checkAutoForwardStep st true t s).2 = true <;> simp [hn]

/-- Closed form of a watchdog tick on a Waiting session. -/
theorem stepWaiting (st : AFState) (t : Nat) :
    checkAutoForwardStep st true t .Waiting =
      (if t - (st.waitingSince.getD t) < autoForwardDelay ∨ maxAutoForwards ≤ st.count then
        ({ waitingSince := some (st.waitingSince.getD t), count := st.count }, false)
      else ({ waitingSince := some t, count := st.count + 1 }, true)) := by
  obtain ⟨ws, c⟩ := st
  cases ws with
  | none => simp [checkAutoForwardStep, autoForwardDelay, Nat.sub_self]
  | some s =>
    by_cases h1 : t - s < autoForwardDelay <;> by_cases h2 : maxAutoForwards ≤ c <;>
      simp [checkAutoForwardStep, h1, h2]

/-- Closed form of a watchdog tick on a Running session: timer cleared,
counter reset, no nudge. -/
theorem stepRunning (st : AFState) (t : Nat) :
    checkAutoForwardStep st true t .Running = (⟨none, 0⟩, false) := rfl

/-- Closed form of a watchdog tick on a TaskDone session: timer cleared,
counter kept, no nudge. -/
theorem stepTaskDone (st : AFState) (t : Nat) :
    checkAutoForwardStep st true t .TaskDone = (⟨none, st.count⟩, false) := rfl

/-- Nudge-count bound: over any run of Waiting ticks, at most the
remaining budget of nudges is issued. -/
theorem afRun_length_bound (ticks : List (Nat × Status)) :
    ∀ (st : AFState), (∀ x ∈ ticks, x.2 = .Waiting) →
      (afRun st ticks).2.length ≤ maxAutoForwards - st.count := by
  induction ticks with
  | nil =>
    intro st h
    simp [afRun]
  | cons x rest ih =>
    intro st h
    obtain ⟨t, s⟩ := x
    have hs : s = .Waiting := h (t, s) (by simp)
    subst hs
    have hrest : ∀ x ∈ rest, x.2 = .Waiting := fun y hy => h y (List.mem_cons_of_mem _ hy)
    by_cases hc : t - (st.waitingSince.getD t) < autoForwardDelay ∨
        maxAutoForwards ≤ st.count
    · have hstep : checkAutoForwardStep st true t .Waiting =
          (⟨some (st.waitingSince.getD t), st.count⟩, false) := by
        rw [stepWaiting, if_pos hc]
      rw [afRun_cons, hstep]
      simpa using ih ⟨some (st.waitingSince.getD t), st.count⟩ hrest
    · have hstep : checkAutoForwardStep st true t .Waiting =
          (⟨some t, st.count + 1⟩, true) := by
        rw [stepWaiting, if_neg hc]
      rw [afRun_cons, hstep]
      push_neg at hc
      have := ih ⟨some t, st.count + 1⟩ hrest
      simp only [List.length_cons] at this ⊢
      simp at this ⊢
      omega

/-- Spacing invariant: starting from a state waiting since s, with
nondecreasing Waiting ticks no earlier than s, every nudge comes at
least a full delay after s and consecutive nudges are a full delay
apart. -/
theorem afRun_spacing_aux (ticks : List (Nat × Status)) :
    ∀ (s c : Nat), (∀ x ∈ ticks, x.2 = .Waiting) →
      List.Pairwise (fun x y => x.1 ≤ y.1) ticks →
      (∀ x ∈ ticks, s ≤ x.1) →
      (∀ n ∈ (afRun ⟨some s, c⟩ ticks).2, s + autoForwardDelay ≤ n) ∧
      List.Chain' (fun a b => a + autoForwardDelay ≤ b) (afRun ⟨some s, c⟩ ticks).2 := by
  induction ticks with
  | nil =>
    intro s c _ _ _
    simp [afRun]
  | cons x rest ih =>
    intro s c hw hp hge
    obtain ⟨t, st0⟩ := x
    have hst : st0 = .Waiting := hw (t, st0) (by simp)
    subst hst
    have hwrest : ∀ x ∈ rest, x.2 = .Waiting := fun y hy => hw y (List.mem_cons_of_mem _ hy)
    have hplist := List.pairwise_cons.mp hp
    have hst2 : s ≤ t := hge (t, .Waiting) (by simp)
    by_cases hc : t - s < autoForwardDelay ∨ maxAutoForwards ≤ c
    · have hstep : checkAutoForwardStep ⟨some s, c⟩ true t .Waiting =
          (⟨some s, c⟩, false) := by
        rw [stepWaiting]
        simp only [Option.getD]
        rw [if_pos hc]
      rw [afRun_cons, hstep]
      simp only [Bool.false_eq_true, if_false]
      exact ih s c hwrest hplist.2 (fun y hy => hge y (List.mem_cons_of_mem _ hy))
    · have hstep : checkAutoForwardStep ⟨some s, c⟩ true t .Waiting =
          (⟨some t, c + 1⟩, true) := by
        rw [stepWaiting]
        simp only [Option.getD]
        rw [if_neg hc]
      rw [afRun_cons, hstep]
      simp only [if_true]
      push_neg at hc
      have hdel : s + autoForwardDelay ≤ t := by omega
      have htail := ih t (c + 1) hwrest hplist.2 (fun y hy => hplist.1 y hy)
      constructor
      · intro n hn
        rcases List.mem_cons.mp hn with h | h
        · omega
        · have := htail.1 n h
          omega
      · rw [List.chain'_cons']
        refine ⟨?_, htail.2⟩
        intro b hb
        exact htail.1 b (List.mem_of_mem_head? hb)

/-- Holding pattern: Waiting ticks strictly inside the delay window
leave the state unchanged and issue no nudge. -/
theorem afRun_hold (ts : List (Nat × Status)) :
    ∀ (t0 c : Nat), (∀ x ∈ ts, x.2 = .Waiting) →
      (∀ x ∈ ts, x.1 < t0 + autoForwardDelay) →
      afRun ⟨some t0, c⟩ ts = (⟨some t0, c⟩, []) := by
  induction ts with
  | nil =>
    intro t0 c _ _
    simp [afRun]
  | cons x rest ih =>
    intro t0 c hw hlt
    obtain ⟨t, s⟩ := x
    have hs : s = .Waiting := hw (t, s) (by simp)
    subst hs
    have hc : t - t0 < autoForwardDelay := by
      have := hlt (t, .Waiting) (by simp)
      simp [autoForwardDelay] at this ⊢
      omega
    have hstep : checkAutoForwardStep ⟨some t0, c⟩ true t .Waiting =
        (⟨some t0, c⟩, false) := by
      rw [stepWaiting]
      simp only [Option.getD]
      rw [if_pos (Or.inl hc)]
    rw [afRun_cons, hstep]
    simpa using ih t0 c (fun y hy => hw y (List.mem_cons_of_mem _ hy))
      (fun y hy => hlt y (List.mem_cons_of_mem _ hy))

/-! ## C2: the auto-forward watchdog discipline -/

/-- C2. The watchdog issues at most five nudges over any run of Waiting
ticks; nudges on a nondecreasing Waiting run are separated by at least
the full ten-second delay; a session waiting a full delay with budget
left is nudged at the next tick; a session seen Running before the delay
elapses from its first Waiting tick gets no nudge and its counter is
reset to zero; and a TaskDone tick never nudges. -/
theorem checkAutoForward_nudge_discipline :
    (∀ (ticks : List (Nat × Status)) (st : AFState),
      (∀ x ∈ ticks, x.2 = .Waiting) →
      (afRun st ticks).2.length ≤ maxAutoForwards - st.count) ∧
    (∀ (ticks : List (Nat × Status)) (c : Nat),
      (∀ x ∈ ticks, x.2 = .Waiting) →
      List.Pairwise (fun x y => x.1 ≤ y.1) ticks →
      List.Chain' (fun a b => a + autoForwardDelay ≤ b) (afRun ⟨none, c⟩ ticks).2) ∧
    (∀ (st : AFState) (s t : Nat),
      st.waitingSince = some s → st.count < maxAutoForwards →
      s + autoForwardDelay ≤ t →
      (checkAutoForwardStep st true t .Waiting).2 = true) ∧
    (∀ (c t0 t1 : Nat) (ts : List (Nat × Status)),
      (∀ x ∈ ts, x.2 = .Waiting) →
      (∀ x ∈ ts, x.1 < t0 + autoForwardDelay) →
      afRun ⟨none, c⟩ ((t0, .Waiting) :: ts ++ [(t1, .Running)]) = (⟨none, 0⟩, [])) ∧
    (∀ (st : AFState) (t : Nat),
      checkAutoForwardStep st true t .TaskDone = (⟨none, st.count⟩, false)) := by
  refine ⟨afRun_length_bound, ?_, ?_, ?_, stepTaskDone⟩
  · intro ticks c hw hp
    cases ticks with
    | nil => simp [afRun]
    | cons x rest =>
      obtain ⟨t, s⟩ := x
      have hs : s = .Waiting := hw (t, s) (by simp)
      subst hs
      have hstep : checkAutoForwardStep ⟨none, c⟩ true t .Waiting =
          (⟨some t, c⟩, false) := by
        rw [stepWaiting]
        simp only [Option.getD]
        rw [if_pos (Or.inl (by simp [autoForwardDelay]))]
      rw [afRun_cons, hstep]
      simp only [Bool.false_eq_true, if_false]
      have hplist := List.pairwise_cons.mp hp
      exact (afRun_spacing_aux rest t c
        (fun y hy => hw y (List.mem_cons_of_mem _ hy)) hplist.2
        (fun y hy => hplist.1 y hy)).2
  · intro st s t hsince hcount hdel
    rw [stepWaiting, hsince]
    rw [if_neg ?hneg]
    case hneg =>
      push_neg
      simp only [Option.getD]
      constructor
      · omega
      · omega
  · intro c t0 t1 ts hw hlt
    have hstep0 : checkAutoForwardStep ⟨none, c⟩ true t0 .Waiting =
        (⟨some t0, c⟩, false) := by
      rw [stepWaiting]
      simp only [Option.getD]
      rw [if_pos (Or.inl (by simp [autoForwardDelay]))]
    have hfirst : afRun ⟨none, c⟩ ((t0, .Waiting) :: ts) = (⟨some t0, c⟩, []) := by
      rw [afRun_cons, hstep0, afRun_hold ts t0 c hw hlt]
      simp
    have hlast : afRun ⟨some t0, c⟩ [(t1, .Running)] = (⟨none, 0⟩, []) := by
      rw [afRun_cons, stepRunning]
      simp [afRun]
    rw [afRun_append, hfirst, hlast]
    simp

/-- C2 witness: the discipline applied to concrete runs: a two-tick
Waiting run from the fresh state, a nudge fired exactly at the delay,
and a Waiting run interrupted by Running inside the delay window. -/
theorem checkAutoForward_nudge_discipline_witness :
    (afRun ⟨none, 0⟩ [(0, .Waiting), (11, .Waiting)]).2.length ≤ maxAutoForwards - 0 ∧
    List.Chain' (fun a b => a + autoForwardDelay ≤ b)
      (afRun ⟨none, 0⟩ [(0, .Waiting), (11, .Waiting)]).2 ∧
    (checkAutoForwardStep ⟨some 0, 0⟩ true 10 .Waiting).2 = true ∧
    afRun ⟨none, 3⟩ [(0, .Waiting), (5, .Waiting), (8, .Running)] = (⟨none, 0⟩, []) :=
  ⟨checkAutoForward_nudge_discipline.1 [(0, .Waiting), (11, .Waiting)] ⟨none, 0⟩ (by decide),
   checkAutoForward_nudge_discipline.2.1 [(0, .Waiting), (11, .Waiting)] 0
     (by decide) (by decide),
   checkAutoForward_nudge_discipline.2.2.1 ⟨some 0, 0⟩ 0 10 rfl (by decide) (by decide),
   checkAutoForward_nudge_discipline.2.2.2.1 3 0 8 [(5, .Waiting)] (by decide) (by decide)⟩

/-! ## C4: per-host replacement in the registry merge -/

/-- C4. Merging a remote poll result for host h replaces exactly the
entries of host h by the polled sessions and keeps every other entry
(as a multiset; the registry is re-sorted afterwards); merging a local
poll result replaces exactly the entries with an empty host. -/
theorem registry_merge_per_host (cur : List Session) (h : GoStr) (new newL : List Session)
    (hnew : ∀ s ∈ new, s.Host = h) (hloc : ∀ s ∈ newL, s.Host = []) :
    ((updateRemote cur h new).filter (fun s => decide (s.Host ≠ h))).Perm
      (cur.filter (fun s => decide (s.Host ≠ h))) ∧
    ((updateRemote cur h new).filter (fun s => decide (s.Host = h))).Perm new ∧
    ((updateLocal cur newL).filter (fun s => !s.Host.isEmpty)).Perm
      (cur.filter (fun s => !s.Host.isEmpty)) ∧
    ((updateLocal cur newL).filter (fun s => s.Host.isEmpty)).Perm newL := by
  have base : (updateRemote cur h new).Perm
      ((cur.filter (fun s => decide (s.Host ≠ h))) ++ new) := by
    unfold updateRemote
    exact List.perm_insertionSort SessLE _
  have baseL : (updateLocal cur newL).Perm
      (newL ++ cur.filter (fun s => !s.Host.isEmpty)) := by
    unfold updateLocal filterByHost
    have : (fun s : Session => (!s.Host.isEmpty) == true) =
        (fun s : Session => !s.Host.isEmpty) := by
      funext s
      simp
    rw [this]
    exact List.perm_insertionSort SessLE _
  refine ⟨?_, ?_, ?_, ?_⟩
  · have hp := base.filter (fun s => decide (s.Host ≠ h))
    rw [List.filter_append] at hp
    have h1 : (cur.filter (fun s => decide (s.Host ≠ h))).filter
        (fun s => decide (s.Host ≠ h)) = cur.filter (fun s => decide (s.Host ≠ h)) := by
      apply List.filter_eq_self.mpr
      intro a ha
      exact (List.mem_filter.mp ha).2
    have h2 : new.filter (fun s => decide (s.Host ≠ h)) = [] := by
      apply List.filter_eq_nil_iff.mpr
      intro a ha
      simp [hnew a ha]
    rwa [h1, h2, List.append_nil] at hp
  · have hq := base.filter (fun s => decide (s.Host = h))
    rw [List.filter_append] at hq
    have h1 : (cur.filter (fun s => decide (s.Host ≠ h))).filter
        (fun s => decide (s.Host = h)) = [] := by
      apply List.filter_eq_nil_iff.mpr
      intro a ha
      have h3 := (List.mem_filter.mp ha).2
      simp at h3 ⊢
      exact h3
    have h2 : new.filter (fun s => decide (s.Host = h)) = new := by
      apply List.filter_eq_self.mpr
      intro a ha
      simp [hnew a ha]
    rwa [h1, h2, List.nil_append] at hq
  · have hp := baseL.filter (fun s => !s.Host.isEmpty)
    rw [List.filter_append] at hp
    have h1 : newL.filter (fun s => !s.Host.isEmpty) = [] := by
      apply List.filter_eq_nil_iff.mpr
      intro a ha
      simp [hloc a ha]
    have h2 : (cur.filter (fun s => !s.Host.isEmpty)).filter
        (fun s => !s.Host.isEmpty) = cur.filter (fun s => !s.Host.isEmpty) := by
      apply List.filter_eq_self.mpr
      intro a ha
      exact (List.mem_filter.mp ha).2
    rwa [h1, h2, List.nil_append] at hp
  · have hq := baseL.filter (fun s => s.Host.isEmpty)
    rw [List.filter_append] at hq
    have h1 : newL.filter (fun s => s.Host.isEmpty) = newL := by
      apply List.filter_eq_self.mpr
      intro a ha
      simp [hloc a ha]
    have h2 : (cur.filter (fun s => !s.Host.isEmpty)).filter
        (fun s => s.Host.isEmpty) = [] := by
      apply List.filter_eq_nil_iff.mpr
      intro a ha
      have h3 := (List.mem_filter.mp ha).2
      simp at h3 ⊢
      simp [h3]
    rwa [h1, h2, List.append_nil] at hq

/-- Registry fixture for the merge witness: one local and two remote
entries on two hosts. -/
def c4cur : List Session :=
  [mkSession "l1".toList [] .Waiting 1,
   mkSession "r1".toList "h1".toList .Running 2,
   mkSession "r2".toList "h2".toList .Waiting 3]

/-- Remote poll result fixture for host h1. -/
def c4new : List Session := [mkSession "r1b".toList "h1".toList .Permission 4]

/-- Local poll result fixture. -/
def c4newL : List Session := [mkSession "l2".toList [] .Running 5]

/-- C4 witness: the merge frame property applied to the concrete
three-entry registry with a poll result for host h1 and a local result. -/
theorem registry_merge_per_host_witness :
    ((updateRemote c4cur "h1".toList c4new).filter
        (fun s => decide (s.Host ≠ "h1".toList))).Perm
      (c4cur.filter (fun s => decide (s.Host ≠ "h1".toList))) ∧
    ((updateRemote c4cur "h1".toList c4new).filter
        (fun s => decide (s.Host = "h1".toList))).Perm c4new ∧
    ((updateLocal c4cur c4newL).filter (fun s => !s.Host.isEmpty)).Perm
      (c4cur.filter (fun s => !s.Host.isEmpty)) ∧
    ((updateLocal c4cur c4newL).filter (fun s => s.Host.isEmpty)).Perm c4newL :=
  registry_merge_per_host c4cur "h1".toList c4new c4newL (by decide) (by decide)

/-! ## C10: local sessions sort before remote sessions -/

/-- C10. Sorting never places a remote session before a local one: the
output is a permutation of the input in which every session preceding a
local session is itself local. -/
theorem SortSessions_local_before_remote (l : List Session) :
    (SortSessions l).Perm l ∧
    (SortSessions l).Pairwise (fun x y => x.Host.isEmpty = false → y.Host.isEmpty = false) := by
  constructor
  · exact List.perm_insertionSort SessLE l
  · have hs := List.sorted_insertionSort SessLE l
    refine hs.imp ?_
    intro x y hxy hx
    unfold SessLE at hxy
    rw [Bool.not_eq_true'] at hxy
    by_contra hy
    rw [Bool.not_eq_false] at hy
    have hxy2 : ¬ sessLess y x = true := by simp [hxy]
    rw [sessLess_iff] at hxy2
    apply hxy2
    left
    simp [sessRank, hx, hy]

/-! ## C7: ordering by status priority and duration -/

/-- C7 (amended). For a list of sessions that are all of the same
locality (all local, or all remote), SortSessions produces a permutation
ordered by ascending status priority, ties broken by ascending duration.
Mixed-locality lists are first split local-before-remote, which is the
subject of the separate local-first property. -/
theorem SortSessions_grouped_by_priority (b : Bool) (l : List Session)
    (hb : ∀ s ∈ l, s.Host.isEmpty = b) :
    (SortSessions l).Perm l ∧
    (SortSessions l).Pairwise (fun x y =>
      statusPriority x.status < statusPriority y.status ∨
        (statusPriority x.status = statusPriority y.status ∧ x.Duration ≤ y.Duration)) := by
  constructor
  · exact List.perm_insertionSort SessLE l
  · have hs := List.sorted_insertionSort SessLE l
    refine hs.imp_of_mem ?_
    intro x y hx hy hxy
    rw [List.mem_insertionSort] at hx hy
    have hxb := hb x hx
    have hyb := hb y hy
    unfold SessLE at hxy
    rw [Bool.not_eq_true'] at hxy
    have hxy2 : ¬ sessLess y x = true := by simp [hxy]
    rw [sessLess_iff] at hxy2
    have hrank : sessRank x = sessRank y := by
      simp [sessRank, hxb, hyb]
    omega

/-- Fixture of five local sessions mirroring the session-ordering test. -/
def c7fixture : List Session :=
  [mkSession "idle-old".toList [] .Waiting 7200,
   mkSession "running".toList [] .Running 3600,
   mkSession "perm".toList [] .Permission 1800,
   mkSession "idle-new".toList [] .Waiting 600,
   mkSession "unknown".toList [] .Unknown 100]

/-- C7 witness: the amended ordering property applied to the concrete
five-session fixture of the ordering test. -/
theorem SortSessions_grouped_by_priority_witness :
    (SortSessions c7fixture).Perm c7fixture ∧
    (SortSessions c7fixture).Pairwise (fun x y =>
      statusPriority x.status < statusPriority y.status ∨
        (statusPriority x.status = statusPriority y.status ∧ x.Duration ≤ y.Duration)) :=
  SortSessions_grouped_by_priority true c7fixture (by decide)

/-- C7 counterexample to the claim as stated: over all lists the
priority grouping fails, because locality is compared first; a local
Waiting session stays ahead of a remote Permission session. -/
theorem SortSessions_priority_cex :
    SortSessions
        [mkSession "local-waiting".toList [] .Waiting 600,
         mkSession "remote-perm".toList "bay1".toList .Permission 50] =
      [mkSession "local-waiting".toList [] .Waiting 600,
       mkSession "remote-perm".toList "bay1".toList .Permission 50] ∧
    statusPriority .Permission < statusPriority .Waiting := by
  constructor
  · decide
  · decide

end Crabctl
